import Mathlib

/-!
Verification development for the multicloud-mcp supervisor:
a shallow embedding of the orchestration and approval layer
(`supervisor/app.py`, `supervisor/agents.py`) together with theorems
about the approval state machine, the decision parser, the tool
invocation client and the worker-delegation signer.

Python strings are modelled as Lean `String` with the relevant `str`
methods re-implemented over the underlying character list
(`strip`, `lower`, `startswith`, substring containment, `partition`).
-/

namespace Supervisor

/-! ## Python string primitives -/

/-- `str.strip()` over a character list: drop whitespace at both ends. -/
def stripChars (l : List Char) : List Char :=
  ((l.dropWhile Char.isWhitespace).reverse.dropWhile Char.isWhitespace).reverse

/-- Model of Python `str.strip()` (default whitespace). -/
def strTrim (s : String) : String := ⟨stripChars s.data⟩

/-- Model of Python `str.lower()` (per-character lowering). -/
def strLower (s : String) : String := ⟨s.data.map Char.toLower⟩

/-- `startswith` over character lists. -/
def charsStartWith : List Char → List Char → Bool
  | _, [] => true
  | [], _ :: _ => false
  | c :: cs, p :: ps => c == p && charsStartWith cs ps

/-- Model of Python `str.startswith(pat)`. -/
def strStartsWith (s pat : String) : Bool := charsStartWith s.data pat.data

/-- Substring occurrence over character lists (Python `pat in s`). -/
def charsHaveSub (pat : List Char) : List Char → Bool
  | [] => charsStartWith [] pat
  | c :: rest => charsStartWith (c :: rest) pat || charsHaveSub pat rest

/-- Model of Python `pat in s` for strings. -/
def strContainsSub (s pat : String) : Bool := charsHaveSub pat.data s.data

/-- Everything after the first occurrence of `c`, or `[]` when absent
(the third component of Python `str.partition`). -/
def afterChar (c : Char) : List Char → List Char
  | [] => []
  | x :: xs => if x == c then xs else afterChar c xs

/-- Model of `message.partition(" ")[2]`: the text after the first space. -/
def afterFirstSpace (s : String) : String := ⟨afterChar ' ' s.data⟩

/-- Model of Python `str.endswith(suffix)`. -/
def strEndsWith (s suffix : String) : Bool :=
  charsStartWith s.data.reverse suffix.data.reverse

/-- Model of Python `str.rstrip("\n")`: drop trailing newline characters. -/
def rstripNewlines (s : String) : String :=
  ⟨(s.data.reverse.dropWhile (fun c => c == '\n')).reverse⟩

/-! ## Decision parsing (`supervisor/app.py`, `_parse_decision`) -/

/-- The affirmative vocabulary of `_parse_decision`. -/
def affirmatives : List String := ["yes", "y", "ok", "okay", "go ahead", "proceed"]

/-- Shallow embedding of `_parse_decision(message, allowed)`:
returns the `(decision, detail)` pair. -/
def parse_decision (message : String) (allowed : Finset String) : String × Option String :=
  let text := strTrim message
  if text = "" then
    ("invalid", some "Please reply with a decision (approve or reject).")
  else
    let lower := strLower text
    if strContainsSub lower "approve" || affirmatives.contains lower then
      if "approve" ∉ allowed then
        ("invalid", some "Approval is not permitted for this action.")
      else
        ("approve", none)
    else if strStartsWith lower "reject" || strStartsWith lower "no" ||
        strStartsWith lower "deny" || strContainsSub lower "reject" then
      if "reject" ∉ allowed then
        ("invalid", some "Rejection is not permitted for this action.")
      else
        let reason := strTrim (afterFirstSpace text)
        ("reject", some (if reason = "" then "Rejected by reviewer." else reason))
    else if strStartsWith lower "edit" then
      if "edit" ∉ allowed then
        ("invalid", some "Editing is not permitted for this action.")
      else
        ("unsupported_edit", none)
    else
      ("invalid", some "Please reply with \x27approve\x27 or \x27reject <reason>\x27.")

/-! ## Joint allowed-decision set (`supervisor/app.py`, `_allowed_decisions`) -/

/-- A `ReviewConfig` dict: an optional `allowed_decisions` list. -/
structure ReviewConfig where
  allowed_decisions : Option (List String) := none
deriving DecidableEq

/-- The truthy `allowed_decisions` sets collected by `_allowed_decisions`
(a `None` or empty list contributes nothing, matching `if decisions:`). -/
def allowedDecisionSets (review_configs : List ReviewConfig) : List (Finset String) :=
  review_configs.filterMap fun config =>
    match config.allowed_decisions with
    | some decisions => if decisions = [] then none else some decisions.toFinset
    | none => none

/-- Shallow embedding of `_allowed_decisions(review_configs)`. -/
def allowed_decisions (review_configs : List ReviewConfig) : Finset String :=
  match allowedDecisionSets review_configs with
  | [] => {"approve", "edit", "reject"}
  | first :: rest =>
    let allowed := rest.foldl (fun a b => a ∩ b) first
    if allowed = ∅ then first else allowed

/-! ## JSON values and the tool invocation client (`supervisor/agents.py`) -/

/-- JSON-compatible values (numbers restricted to integers: no claim
depends on fractional numbers). Objects are ordered key/value lists. -/
inductive Json where
  | null
  | bool (b : Bool)
  | num (n : Int)
  | str (s : String)
  | arr (xs : List Json)
  | obj (fields : List (String × Json))

/-- First value bound to `key` in an object's field list. -/
def lookupField : List (String × Json) → String → Option Json
  | [], _ => none
  | (k, v) :: rest, key => if k = key then some v else lookupField rest key

/-- Python `d.get(key)` on a JSON value (`none` when absent or not a dict). -/
def jget : Json → String → Option Json
  | Json.obj fields, key => lookupField fields key
  | _, _ => none

/-- Python truthiness of a JSON value. -/
def jTruthy : Json → Bool
  | Json.null => false
  | Json.bool b => b
  | Json.num n => n != 0
  | Json.str s => s ≠ ""
  | Json.arr xs => !xs.isEmpty
  | Json.obj fields => !fields.isEmpty

/-- The single request object `mcp_call_tool` posts to the MCP server
(`supervisor/agents.py` lines 98–106). -/
def mcp_call_tool_request (name : String) (arguments : Json) : Json :=
  Json.obj
    [ ("jsonrpc", Json.str "2.0"),
      ("id", Json.str "supervisor"),
      ("method", Json.str "tools/call"),
      ("params", Json.obj [("name", Json.str name), ("arguments", arguments)]) ]

/-- `(resp or {}).get("result") or {}`: the normalized result object. -/
def mcpResult (resp : Json) : Json :=
  let r0 := if jTruthy resp then (jget resp "result").getD Json.null else Json.null
  if jTruthy r0 then r0 else Json.obj []

/-- `result.get("content") or []` as a chunk list. A truthy non-list
`content` raises in the source; the modelled domain is list-or-absent. -/
def contentList (result : Json) : List Json :=
  match jget result "content" with
  | some (Json.arr xs) => xs
  | _ => []

/-- `chunk.get("type") == "text"` as a Boolean test. -/
def isTextChunk (chunk : Json) : Bool :=
  match jget chunk "type" with
  | some (Json.str s) => s == "text"
  | _ => false

/-- The for-loop of `mcp_call_tool`: the `text` of the first chunk whose
`type` is `"text"` (a missing `text` key yields JSON null, as `chunk.get`). -/
def firstTextChunk : List Json → Option Json
  | [] => none
  | chunk :: rest =>
    if isTextChunk chunk then
      some ((jget chunk "text").getD Json.null)
    else
      firstTextChunk rest

/-- Fallback scan once `structuredContent` is absent or null. -/
def scanContent (result : Json) : Json :=
  match firstTextChunk (contentList result) with
  | some t => t
  | none => result

/-- Shallow embedding of the payload extraction of `mcp_call_tool`
(`supervisor/agents.py` lines 107–113), as a function of the decoded
response object. -/
def mcp_call_tool_result (resp : Json) : Json :=
  let result := mcpResult resp
  match jget result "structuredContent" with
  | some Json.null => scanContent result
  | some v => v
  | none => scanContent result

/-! ## Approval state machine (`supervisor/app.py`) -/

/-- One entry of an interrupt's `action_requests` list: a tool-call
request dict with `name` and `arguments` (some producers use `args`). -/
structure ActionRequest where
  name : Option String := none
  arguments : Option Json := none
  args : Option Json := none

/-- The relevant payload of one langgraph interrupt (`interrupt.value`):
its `action_requests` and `review_configs` entries (either may be absent). -/
structure InterruptValue where
  action_requests : Option (List ActionRequest) := none
  review_configs : Option (List ReviewConfig) := none

/-- `_flatten_interrupts`: concatenate every interrupt's requests and
reviews, in order (`data.get("action_requests") or []` and
`data.get("review_configs") or []`). -/
def flatten_interrupts (interrupts : List InterruptValue) :
    List ActionRequest × List ReviewConfig :=
  (interrupts.foldl (fun acc i => acc ++ i.action_requests.getD []) [],
   interrupts.foldl (fun acc i => acc ++ i.review_configs.getD []) [])

/-- Python `a or b` for an optional JSON value (`None`/falsy falls through). -/
def pyOrJson (a : Option Json) (b : Json) : Json :=
  match a with
  | some v => if jTruthy v then v else b
  | none => b

/-- `request.get("arguments") or request.get("args") or {}`. -/
def requestArgs (request : ActionRequest) : Json :=
  pyOrJson request.arguments (pyOrJson request.args (Json.obj []))

/-- `_build_interrupt_prompt`; `dumps` stands for the standard-library
`json.dumps(args, indent=2)` serialization, external to this layer. -/
def build_interrupt_prompt (dumps : Json → String)
    (requests : List ActionRequest) (allowed : Finset String) : String :=
  let lines := ["Approval required before executing the following tool calls:"]
    ++ (requests.enum.flatMap fun p =>
        let name := p.2.name.getD "<unknown>"
        let args := requestArgs p.2
        [toString (p.1 + 1) ++ ". " ++ name] ++ (if jTruthy args then [dumps args] else []))
  let allowed_text := String.intercalate ", " (allowed.sort (· ≤ ·))
  let lines := lines ++
    ["", "Reply with one of: " ++ allowed_text ++ ".",
     "Examples: \x27approve\x27, \x27reject this change\x27."]
  String.intercalate "\n" lines

/-- A `PENDING_INTERRUPTS[thread_id]` entry: the raw interrupts, the
flattened requests and reviews, the resolved allowed set, the rendered
prompt. -/
structure PendingEntry where
  interrupts : List InterruptValue
  requests : List ActionRequest
  reviews : List ReviewConfig
  allowed : Finset String
  prompt : String

/-- The `PENDING_INTERRUPTS` dict, as an association list with unique keys. -/
abbrev PendingMap := List (String × PendingEntry)

/-- Dict lookup. -/
def mapGet : PendingMap → String → Option PendingEntry
  | [], _ => none
  | (k, v) :: rest, key => if k = key then some v else mapGet rest key

/-- Dict assignment (`PENDING_INTERRUPTS[thread_id] = {...}`). -/
def mapSet : PendingMap → String → PendingEntry → PendingMap
  | [], key, v => [(key, v)]
  | (k, w) :: rest, key, v =>
    if k = key then (key, v) :: rest else (k, w) :: mapSet rest key v

/-- Dict removal (`PENDING_INTERRUPTS.pop(thread_id, None)`). -/
def mapPop : PendingMap → String → PendingMap
  | [], _ => []
  | (k, v) :: rest, key => if k = key then rest else (k, v) :: mapPop rest key

/-- `_register_interrupt(thread_id, interrupts)`: flatten, compute the
allowed set, render the prompt, store the entry; returns the new map
with the prompt and allowed set. -/
def register_interrupt (dumps : Json → String) (m : PendingMap) (thread_id : String)
    (interrupts : List InterruptValue) : PendingMap × String × Finset String :=
  let flat := flatten_interrupts interrupts
  let allowed := allowed_decisions flat.2
  let prompt := build_interrupt_prompt dumps flat.1 allowed
  (mapSet m thread_id ⟨interrupts, flat.1, flat.2, allowed, prompt⟩, prompt, allowed)

/-- One element of the `decisions` list handed to `Command(resume=...)`. -/
structure DecisionPayload where
  type : String
  message : Option String := none
deriving DecidableEq

/-- The `decisions_payload` construction of the `/run` handler
(lines 158–167): one decision per originally pending request. -/
def decisionsPayload (decision : String) (detail : Option String)
    (requests : List ActionRequest) : List DecisionPayload :=
  if decision = "approve" then
    requests.map fun _ => { type := "approve" }
  else if decision = "reject" then
    let message_text :=
      match detail with
      | some s => if s = "" then "Rejected by reviewer." else s
      | none => "Rejected by reviewer."
    requests.map fun _ => { type := "reject", message := some message_text }
  else
    [{ type := decision }]

/-- The JSON body of a `/run` response that does not resume the agent. -/
structure RunResponse where
  ok : Bool
  answer : String
  thread_id : String
  awaiting_decision : Bool
deriving DecidableEq

/-- Python `f"{detail}"` on an optional string (`None` renders as `"None"`). -/
def pyFormat : Option String → String
  | some s => s
  | none => "None"

/-- The corrective answer returned for an `unsupported_edit` decision. -/
def editUnsupportedAnswer : String :=
  "Editing tool arguments is not supported in this interface. " ++
  "Please reply with \x27approve\x27 or \x27reject <reason>\x27."

/-- Outcome of one `/run` request, with the reasoning engine left
external: `resumed` and `dispatched` record exactly what is handed to
`agent.invoke` together with the pending map at that point. -/
inductive StepResult where
  | httpError (status : Nat) (detail : String)
  | awaiting (resp : RunResponse) (m : PendingMap)
  | resumed (decisions : List DecisionPayload) (thread_id : String) (m : PendingMap)
  | dispatched (content : String) (thread_id : String) (m : PendingMap)

/-- The pending-decision branch of the `/run` handler (lines 135–173). -/
def handlePending (m : PendingMap) (thread_id : String) (pending : PendingEntry)
    (content : String) : StepResult :=
  let parsed := parse_decision content pending.allowed
  let decision := parsed.1
  let detail := parsed.2
  if decision = "invalid" then
    .awaiting ⟨true, pending.prompt ++ "\n\n" ++ pyFormat detail, thread_id, true⟩ m
  else if decision = "unsupported_edit" then
    .awaiting ⟨true, editUnsupportedAnswer, thread_id, true⟩ m
  else
    .resumed (decisionsPayload decision detail pending.requests) thread_id
      (mapPop m thread_id)

/-- The fallback conversation thread (`DEFAULT_THREAD_ID`). -/
def DEFAULT_THREAD_ID : String := "ui-thread"

/-- Thread-identifier resolution of the `/run` handler (lines 125–131). -/
def resolveThreadId (thread_id : Option String) : Except String String :=
  match thread_id with
  | some t =>
    let tid := strTrim t
    if tid = "" then .error "thread_id cannot be blank." else .ok tid
  | none => .ok DEFAULT_THREAD_ID

/-- The `/run` handler up to the external `agent.invoke` calls
(lines 118–175). -/
def runStep (m : PendingMap) (message : String) (thread_id : Option String) :
    StepResult :=
  let content := strTrim message
  if content = "" then .httpError 400 "Message is required."
  else
    match resolveThreadId thread_id with
    | .error detail => .httpError 400 detail
    | .ok tid =>
      match mapGet m tid with
      | some pending => handlePending m tid pending content
      | none => .dispatched content tid m

/-! ## Worker delegation and signing (`supervisor/agents.py`) -/

/-- One lowercase hex character for a nibble value. -/
def hexChar (n : Nat) : Char :=
  if n < 10 then Char.ofNat (48 + n) else Char.ofNat (87 + n)

/-- Two hex characters for one byte. -/
def hexOfByte (b : UInt8) : List Char := [hexChar (b.toNat / 16), hexChar (b.toNat % 16)]

/-- `hexdigest()`: lowercase hex rendering of digest bytes. -/
def hexdigest (bytes : List UInt8) : String := ⟨(bytes.map hexOfByte).flatten⟩

/-- All characters are lowercase hex digits. -/
def isHexStringB (s : String) : Bool :=
  s.data.all fun c => c.isDigit || ('a' ≤ c && c ≤ 'f')

/-- UTF-8 encoding of a string: the byte sequence fed to the hashes. -/
def utf8Bytes (s : String) : List UInt8 := s.toUTF8.toList

/-- `_DEFAULT_SIGNATURE_SECRET`. -/
def DEFAULT_SIGNATURE_SECRET : String := "diagnostics-worker-signing-key"

/-- The fixed signature block appended by `_attach_worker_signatures`:
separator line, header line, one `- <algorithm>: <digest>` line each. -/
def signatureBlock (hmac_sha256 blake2s_sig : String) : String :=
  "\n\n---\n" ++ "Worker agent signatures:\n" ++
  "- hmac_sha256: " ++ hmac_sha256 ++ "\n" ++
  "- blake2s: " ++ blake2s_sig ++ "\n"

/-- Shallow embedding of `_attach_worker_signatures` (lines 355–368).
`hmacSha256 secret body` and `blake2s data` stand for the external
`hmac`/`hashlib` primitives, returning digest bytes; `secretEnv` is the
`WORKER_SIGNATURE_SECRET` environment value (`none` when unset). -/
def attach_worker_signatures (hmacSha256 : List UInt8 → List UInt8 → List UInt8)
    (blake2s : List UInt8 → List UInt8)
    (secretEnv : Option String) (answer : String) : String :=
  let payload := answer
  let secret := utf8Bytes (secretEnv.getD DEFAULT_SIGNATURE_SECRET)
  let body := utf8Bytes payload
  let hmac_sha256 := hexdigest (hmacSha256 secret body)
  let blake2s_sig := hexdigest (blake2s (body ++ secret))
  rstripNewlines payload ++ signatureBlock hmac_sha256 blake2s_sig

/-- The structured instruction block rendered for the worker
(`_run_diagnostics_worker` lines 307–316). -/
def diagnosticsPrompt (clean_goal : String) (nspace workload : Option String)
    (include_logs : Bool) (max_pods : Int) : String :=
  let focus_namespace :=
    match nspace with
    | some s => if s = "" then "all namespaces" else strTrim s
    | none => "all namespaces"
  let focus_workload :=
    match workload with
    | some s => if s = "" then "any workload" else strTrim s
    | none => "any workload"
  let lines :=
    [ "Goal: " ++ clean_goal,
      "Namespace focus: " ++ focus_namespace,
      "Workload focus: " ++ focus_workload,
      "Collect logs: " ++ (if include_logs then "yes" else "no"),
      "Max pods for deep inspection: " ++ toString max_pods,
      "Follow the diagnostics workflow and return the summary plus structured JSON." ]
  String.intercalate "\n" lines

/-- Shallow embedding of `_run_diagnostics_worker` (lines 293–320).
`worker` stands for the external reasoning loop composed with
`_extract_answer` (`none` models "no assistant output", which raises in
the source); errors carry the `ValueError`/`RuntimeError` messages (the
spec's `InvalidArgument` and `NoOutput`). -/
def run_diagnostics_worker
    (hmacSha256 : List UInt8 → List UInt8 → List UInt8)
    (blake2s : List UInt8 → List UInt8)
    (secretEnv : Option String)
    (worker : String → Option String)
    (goal : String) (nspace workload : Option String)
    (include_logs : Bool) (max_pods : Int) : Except String String :=
  let clean_goal := strTrim goal
  if clean_goal = "" then .error "goal is required for diagnostics"
  else if max_pods ≤ 0 then .error "max_pods must be a positive integer"
  else
    match worker (diagnosticsPrompt clean_goal nspace workload include_logs max_pods) with
    | none => .error "Diagnostics worker returned no output."
    | some answer => .ok (attach_worker_signatures hmacSha256 blake2s secretEnv answer)

/-- A concrete decoded tool-call response used as a witness input: no
`structuredContent`, one `text` chunk. -/
def respWitness : Json :=
  Json.obj
    [ ("result", Json.obj
        [ ("content", Json.arr
            [Json.obj [("type", Json.str "text"), ("text", Json.str "hi")]]) ]) ]

/-! ## Theorems -/

/-- Folding intersection over a list of sets computes the common membership. -/
theorem mem_foldl_inter (l : List (Finset String)) (init : Finset String) (x : String) :
    (x ∈ l.foldl (fun a b => a ∩ b) init) ↔ x ∈ init ∧ ∀ s ∈ l, x ∈ s := by
  induction l generalizing init with
  | nil => simp
  | cons hd tl ih =>
    simp only [List.foldl_cons, ih, Finset.mem_inter, List.mem_cons]
    constructor
    · rintro ⟨⟨hi, hh⟩, hall⟩
      refine ⟨hi, fun s hs => ?_⟩
      rcases hs with rfl | hs
      · exact hh
      · exact hall s hs
    · rintro ⟨hi, hall⟩
      exact ⟨⟨hi, hall hd (Or.inl rfl)⟩, fun s hs => hall s (Or.inr hs)⟩

/-- Every set collected by `allowedDecisionSets` is non-empty: the source
only appends `set(decisions)` for truthy `decisions`. -/
theorem allowedDecisionSets_nonempty (review_configs : List ReviewConfig) :
    ∀ s ∈ allowedDecisionSets review_configs, s.Nonempty := by
  intro s hs
  simp only [allowedDecisionSets, List.mem_filterMap] at hs
  obtain ⟨config, _, hcfg⟩ := hs
  cases h : config.allowed_decisions with
  | none => rw [h] at hcfg; cases hcfg
  | some decisions =>
    rw [h] at hcfg
    by_cases hd : decisions = []
    · simp [hd] at hcfg
    · simp only [hd, if_neg, reduceIte] at hcfg
      obtain rfl : decisions.toFinset = s := Option.some.inj hcfg
      rcases decisions with _ | ⟨a, rest⟩
      · exact absurd rfl hd
      · exact ⟨a, by simp⟩

/-- C1: the allowed-decision set presented for a batch is the intersection
of all restricting `ReviewConfig` sets; with no restricting config it is
the universal set `{approve, edit, reject}`; with an empty intersection it
falls back to the first restricting set; it is non-empty in every case. -/
theorem c1_joint_allowed_decision_set (review_configs : List ReviewConfig) :
    (allowed_decisions review_configs).Nonempty ∧
    (allowedDecisionSets review_configs = [] →
      allowed_decisions review_configs = {"approve", "edit", "reject"}) ∧
    (∀ first rest, allowedDecisionSets review_configs = first :: rest →
      ((rest.foldl (fun a b => a ∩ b) first ≠ ∅ →
        ∀ x, x ∈ allowed_decisions review_configs ↔
          ∀ s ∈ allowedDecisionSets review_configs, x ∈ s) ∧
       (rest.foldl (fun a b => a ∩ b) first = ∅ →
        allowed_decisions review_configs = first))) := by
  cases h : allowedDecisionSets review_configs with
  | nil =>
    refine ⟨?_, fun _ => ?_, fun first rest hcontra => ?_⟩
    · rw [allowed_decisions, h]
      exact ⟨"approve", by decide⟩
    · rw [allowed_decisions, h]
    · exact absurd hcontra (by simp)
  | cons f r =>
    have hres : allowed_decisions review_configs =
        (if r.foldl (fun a b => a ∩ b) f = ∅ then f
         else r.foldl (fun a b => a ∩ b) f) := by
      rw [allowed_decisions, h]
    have hfne : f.Nonempty :=
      allowedDecisionSets_nonempty review_configs f (h ▸ List.mem_cons_self f r)
    refine ⟨?_, fun hnil => ?_, fun first rest hfr => ?_⟩
    · rw [hres]
      by_cases hfold : r.foldl (fun a b => a ∩ b) f = ∅
      · simpa [hfold] using hfne
      · simpa [hfold] using Finset.nonempty_iff_ne_empty.mpr hfold
    · exact absurd hnil (by simp)
    · injection hfr with h1 h2
      subst h1
      subst h2
      constructor
      · intro hfold x
        rw [hres, if_neg hfold, mem_foldl_inter]
        simp only [List.mem_cons]
        constructor
        · rintro ⟨hx, hall⟩ s hs
          rcases hs with rfl | hs
          · exact hx
          · exact hall s hs
        · intro hall
          exact ⟨hall f (Or.inl rfl), fun s hs => hall s (Or.inr hs)⟩
      · intro hfold
        rw [hres, if_pos hfold]

/-- C1 witness: a concrete batch whose two restricting configs intersect
in `{reject}`. -/
theorem c1_joint_allowed_decision_set_witness :
    (allowed_decisions [⟨some ["approve", "reject"]⟩, ⟨some ["reject", "edit"]⟩]).Nonempty ∧
    ("reject" ∈ allowed_decisions [⟨some ["approve", "reject"]⟩, ⟨some ["reject", "edit"]⟩] ↔
      ∀ s ∈ allowedDecisionSets [⟨some ["approve", "reject"]⟩, ⟨some ["reject", "edit"]⟩],
        "reject" ∈ s) := by
  refine ⟨(c1_joint_allowed_decision_set _).1, ?_⟩
  exact (((c1_joint_allowed_decision_set
      [⟨some ["approve", "reject"]⟩, ⟨some ["reject", "edit"]⟩]).2.2 _ _ rfl).1
    (by decide)) "reject"

/-- Inversion of a `reject` parse: the detail is the trimmed remainder of
the reply after its first word, defaulting to the fixed string when that
remainder is empty. -/
theorem parse_decision_reject_detail (message : String) (allowed : Finset String)
    (detail : Option String)
    (h : parse_decision message allowed = ("reject", detail)) :
    detail = some
      (if strTrim (afterFirstSpace (strTrim message)) = "" then "Rejected by reviewer."
       else strTrim (afterFirstSpace (strTrim message))) := by
  simp only [parse_decision] at h
  split_ifs at h <;> simp_all

/-- C2: a reply parsed as `approve` resumes the orchestrator with one
approval decision per originally pending request, in order; a reply
parsed as `reject` resumes it with one rejection decision per pending
request, all carrying the parsed rejection message, which is the fixed
default exactly when the reply has no text after its first word. -/
theorem c2_resume_round_trip (m : PendingMap) (tid content : String)
    (pending : PendingEntry) (detail : Option String) :
    (parse_decision content pending.allowed = ("approve", detail) →
      handlePending m tid pending content =
        .resumed (pending.requests.map fun _ => { type := "approve" }) tid
          (mapPop m tid)) ∧
    (parse_decision content pending.allowed = ("reject", detail) →
      ∃ r, detail = some r ∧ r ≠ "" ∧
        handlePending m tid pending content =
          .resumed
            (pending.requests.map fun _ => { type := "reject", message := some r })
            tid (mapPop m tid) ∧
        (strTrim (afterFirstSpace (strTrim content)) = "" →
          r = "Rejected by reviewer.")) := by
  constructor
  · intro h
    simp only [handlePending, h]
    simp [decisionsPayload]
  · intro h
    have hdet := parse_decision_reject_detail content pending.allowed detail h
    by_cases hrem : strTrim (afterFirstSpace (strTrim content)) = ""
    · refine ⟨"Rejected by reviewer.", by simp [hdet, hrem], by simp, ?_, fun _ => rfl⟩
      simp only [handlePending, h]
      simp [decisionsPayload, hdet, hrem]
    · refine ⟨strTrim (afterFirstSpace (strTrim content)), by simp [hdet, hrem], hrem,
        ?_, fun hc => absurd hc hrem⟩
      simp only [handlePending, h]
      simp [decisionsPayload, hdet, hrem]

/-- C2 witness: two pending requests, replies `"approve"` and `"reject"`. -/
theorem c2_resume_round_trip_witness :
    handlePending [] "t1"
        ⟨[], [⟨some "a", none, none⟩, ⟨some "b", none, none⟩], [], {"approve", "reject"}, "p"⟩
        "approve" =
      .resumed [{ type := "approve" }, { type := "approve" }] "t1" [] ∧
    handlePending [] "t1"
        ⟨[], [⟨some "a", none, none⟩, ⟨some "b", none, none⟩], [], {"approve", "reject"}, "p"⟩
        "reject" =
      .resumed
        [{ type := "reject", message := some "Rejected by reviewer." },
         { type := "reject", message := some "Rejected by reviewer." }] "t1" [] := by
  constructor
  · exact (c2_resume_round_trip [] "t1" "approve"
      ⟨[], [⟨some "a", none, none⟩, ⟨some "b", none, none⟩], [], {"approve", "reject"}, "p"⟩
      none).1 (by decide)
  · obtain ⟨r, hr, -, hrun, hdef⟩ := (c2_resume_round_trip [] "t1" "reject"
      ⟨[], [⟨some "a", none, none⟩, ⟨some "b", none, none⟩], [], {"approve", "reject"}, "p"⟩
      (some "Rejected by reviewer.")).2 (by decide)
    rw [hdef (by decide)] at hrun
    exact hrun

/-- C3: while a batch is pending, a reply parsed as `invalid` or as
`unsupported_edit` makes `/run` answer `awaiting_decision: true` with a
corrective text, leaves the pending map (hence the registered entry with
its interrupt data, allowed set and prompt) unchanged, and does not
resume the orchestrator. -/
theorem c3_invalid_keeps_pending (m : PendingMap) (msg : String)
    (tidOpt : Option String) (tid : String) (pending : PendingEntry)
    (decision : String) (detail : Option String)
    (hmsg : ¬ strTrim msg = "")
    (htid : resolveThreadId tidOpt = .ok tid)
    (hget : mapGet m tid = some pending)
    (hparse : parse_decision (strTrim msg) pending.allowed = (decision, detail))
    (hdec : decision = "invalid" ∨ decision = "unsupported_edit") :
    runStep m msg tidOpt =
      .awaiting
        ⟨true,
         (if decision = "invalid" then pending.prompt ++ "\n\n" ++ pyFormat detail
          else editUnsupportedAnswer),
         tid, true⟩ m ∧
    mapGet m tid = some pending := by
  refine ⟨?_, hget⟩
  have hstep : runStep m msg tidOpt = handlePending m tid pending (strTrim msg) := by
    simp only [runStep, if_neg hmsg, htid, hget]
  rw [hstep]
  rcases hdec with rfl | rfl
  · simp only [handlePending, hparse]
    simp
  · simp only [handlePending, hparse]
    simp

/-- C3 witness: the reply `"maybe"` on the default thread re-prompts and
leaves the batch pending. -/
theorem c3_invalid_keeps_pending_witness :
    runStep
        [("ui-thread", ⟨[], [⟨some "a", none, none⟩], [], {"approve", "edit", "reject"}, "p"⟩)]
        "maybe" none =
      .awaiting
        ⟨true,
         "p" ++ "\n\n" ++
           pyFormat (some "Please reply with \x27approve\x27 or \x27reject <reason>\x27."),
         "ui-thread", true⟩
        [("ui-thread", ⟨[], [⟨some "a", none, none⟩], [], {"approve", "edit", "reject"}, "p"⟩)] ∧
    mapGet
        [("ui-thread", ⟨[], [⟨some "a", none, none⟩], [], {"approve", "edit", "reject"}, "p"⟩)]
        "ui-thread" =
      some ⟨[], [⟨some "a", none, none⟩], [], {"approve", "edit", "reject"}, "p"⟩ := by
  have h := c3_invalid_keeps_pending
    [("ui-thread", ⟨[], [⟨some "a", none, none⟩], [], {"approve", "edit", "reject"}, "p"⟩)]
    "maybe" none "ui-thread"
    ⟨[], [⟨some "a", none, none⟩], [], {"approve", "edit", "reject"}, "p"⟩
    "invalid" (some "Please reply with \x27approve\x27 or \x27reject <reason>\x27.")
    (by decide) rfl rfl (by decide) (Or.inl rfl)
  rwa [if_pos rfl] at h

/-- C8: a reply whose lowercase trimmed text contains the substring
"approve" (with approve in the allowed set) is classified as `approve`
no matter how it begins, and resolves the entire pending batch as
approved. -/
theorem c8_approve_substring_precedence (m : PendingMap) (tid content : String)
    (pending : PendingEntry)
    (hsub : strContainsSub (strLower (strTrim content)) "approve" = true)
    (hallow : "approve" ∈ pending.allowed) :
    parse_decision content pending.allowed = ("approve", none) ∧
    handlePending m tid pending content =
      .resumed (pending.requests.map fun _ => { type := "approve" }) tid
        (mapPop m tid) := by
  have hne : ¬ strTrim content = "" := by
    intro h0
    rw [h0] at hsub
    exact absurd hsub (by decide)
  have hparse : parse_decision content pending.allowed = ("approve", none) := by
    simp only [parse_decision, if_neg hne, hsub]
    simp [hallow]
  refine ⟨hparse, ?_⟩
  simp only [handlePending, hparse]
  simp [decisionsPayload]

/-- C8 witness: the reply `"don't approve"` approves the whole batch. -/
theorem c8_approve_substring_precedence_witness :
    parse_decision "don\x27t approve" {"approve", "reject"} = ("approve", none) ∧
    handlePending [] "t1"
        ⟨[], [⟨some "a", none, none⟩, ⟨some "b", none, none⟩], [], {"approve", "reject"}, "p"⟩
        "don\x27t approve" =
      .resumed [{ type := "approve" }, { type := "approve" }] "t1" [] := by
  exact c8_approve_substring_precedence [] "t1" "don\x27t approve"
    ⟨[], [⟨some "a", none, none⟩, ⟨some "b", none, none⟩], [], {"approve", "reject"}, "p"⟩
    (by decide) (by decide)

/-- A list starting with a non-empty pattern starts with its head. -/
theorem charsStartWith_head (l : List Char) (p : Char) (ps : List Char)
    (h : charsStartWith l (p :: ps) = true) :
    ∃ t, l = p :: t ∧ charsStartWith t ps = true := by
  cases l with
  | nil => simp [charsStartWith] at h
  | cons c cs =>
    simp only [charsStartWith, Bool.and_eq_true, beq_iff_eq] at h
    exact ⟨cs, by rw [h.1], h.2⟩

/-- Lists with distinct heads do not start with one another. -/
theorem charsStartWith_ne_head (t : List Char) (a b : Char) (bs : List Char)
    (hab : (a == b) = false) : charsStartWith (a :: t) (b :: bs) = false := by
  simp [charsStartWith, hab]

/-- C4 counterexample: with `edit` outside the batch's allowed set, the
reply `"edit"` is classified `invalid`, not `unsupported_edit`. -/
theorem c4_edit_counterexample :
    parse_decision "edit" {"approve", "reject"} =
      ("invalid", some "Editing is not permitted for this action.") ∧
    (parse_decision "edit" {"approve", "reject"}).1 ≠ "unsupported_edit" := by
  constructor <;> decide

/-- C4 amended: a reply whose trimmed lowercase text starts with "edit"
and contains neither "approve" nor "reject" is reported as
`unsupported_edit` when `edit` is in the allowed set, and as `invalid`
("Editing is not permitted for this action.") when it is not. -/
theorem c4_edit_unsupported (message : String) (allowed : Finset String)
    (hstart : strStartsWith (strLower (strTrim message)) "edit" = true)
    (hnapp : strContainsSub (strLower (strTrim message)) "approve" = false)
    (hnrej : strContainsSub (strLower (strTrim message)) "reject" = false) :
    parse_decision message allowed =
      (if "edit" ∈ allowed then (("unsupported_edit" : String), (none : Option String))
       else ("invalid", some "Editing is not permitted for this action.")) := by
  have hstart' : charsStartWith (strLower (strTrim message)).data
      ('e' :: ['d', 'i', 't']) = true := hstart
  obtain ⟨t, hdata, -⟩ := charsStartWith_head _ _ _ hstart'
  have hne : ¬ strTrim message = "" := by
    intro h0
    rw [h0] at hdata
    simp [strLower] at hdata
  have haff : affirmatives.contains (strLower (strTrim message)) = false := by
    cases h2 : affirmatives.contains (strLower (strTrim message)) with
    | false => rfl
    | true =>
      exfalso
      have hmem : strLower (strTrim message) ∈ affirmatives := by
        simpa [List.contains] using h2
      simp only [affirmatives, List.mem_cons, List.mem_singleton,
        List.not_mem_nil, or_false] at hmem
      rcases hmem with hcase | hcase | hcase | hcase | hcase | hcase <;>
        (rw [hcase] at hdata; injection hdata with h1 _; exact absurd h1 (by decide))
  have hrej : strStartsWith (strLower (strTrim message)) "reject" = false := by
    show charsStartWith (strLower (strTrim message)).data ('r' :: "eject".data) = false
    rw [hdata]
    exact charsStartWith_ne_head _ _ _ _ (by decide)
  have hno : strStartsWith (strLower (strTrim message)) "no" = false := by
    show charsStartWith (strLower (strTrim message)).data ('n' :: "o".data) = false
    rw [hdata]
    exact charsStartWith_ne_head _ _ _ _ (by decide)
  have hdeny : strStartsWith (strLower (strTrim message)) "deny" = false := by
    show charsStartWith (strLower (strTrim message)).data ('d' :: "eny".data) = false
    rw [hdata]
    exact charsStartWith_ne_head _ _ _ _ (by decide)
  simp only [parse_decision, if_neg hne, hnapp, haff, hrej, hno, hdeny, hnrej, hstart]
  by_cases hmem : "edit" ∈ allowed <;> simp [hmem]

/-- C4 amended witness: `"edit"` with `edit` allowed. -/
theorem c4_edit_unsupported_witness :
    parse_decision "edit" {"approve", "edit", "reject"} = ("unsupported_edit", none) := by
  have h := c4_edit_unsupported "edit" {"approve", "edit", "reject"}
    (by decide) (by decide) (by decide)
  rwa [if_pos (by decide)] at h

/-- Dict assignment makes the key immediately retrievable. -/
theorem mapGet_mapSet (m : PendingMap) (k : String) (v : PendingEntry) :
    mapGet (mapSet m k v) k = some v := by
  induction m with
  | nil => simp [mapGet, mapSet]
  | cons hd tl ih =>
    obtain ⟨k0, v0⟩ := hd
    by_cases h : k0 = k
    · simp [mapSet, mapGet, h]
    · simp [mapSet, mapGet, h, ih]

/-- C9: a `/run` request that omits `thread_id` is routed to the fixed
thread `"ui-thread"` (`DEFAULT_THREAD_ID`); all such requests behave as
requests for that one thread, and a decision reply sent without a
`thread_id` is parsed against the pending batch that a previous
`thread_id`-less request registered under `"ui-thread"`. -/
theorem c9_default_thread_shared (dumps : Json → String) (m : PendingMap)
    (interrupts : List InterruptValue) (msg : String)
    (hmsg : ¬ strTrim msg = "") :
    resolveThreadId none = .ok DEFAULT_THREAD_ID ∧
    runStep m msg none = runStep m msg (some DEFAULT_THREAD_ID) ∧
    (∃ entry,
      mapGet (register_interrupt dumps m DEFAULT_THREAD_ID interrupts).1
        DEFAULT_THREAD_ID = some entry ∧
      runStep (register_interrupt dumps m DEFAULT_THREAD_ID interrupts).1 msg none =
        handlePending (register_interrupt dumps m DEFAULT_THREAD_ID interrupts).1
          DEFAULT_THREAD_ID entry (strTrim msg)) := by
  have hres : resolveThreadId none = .ok DEFAULT_THREAD_ID := rfl
  have hres2 : resolveThreadId (some DEFAULT_THREAD_ID) = .ok DEFAULT_THREAD_ID := rfl
  refine ⟨rfl, by simp only [runStep, hres, hres2], ?_⟩
  obtain ⟨entry, hmse⟩ : ∃ e,
      (register_interrupt dumps m DEFAULT_THREAD_ID interrupts).1 =
        mapSet m DEFAULT_THREAD_ID e := ⟨_, rfl⟩
  have hget : mapGet (register_interrupt dumps m DEFAULT_THREAD_ID interrupts).1
      DEFAULT_THREAD_ID = some entry := by
    rw [hmse]
    exact mapGet_mapSet m DEFAULT_THREAD_ID entry
  refine ⟨entry, hget, ?_⟩
  simp only [runStep, if_neg hmsg, hres, hget]

/-- C9 witness: a batch registered without `thread_id`, then an
`"approve"` reply without `thread_id`. -/
theorem c9_default_thread_shared_witness :
    resolveThreadId none = .ok DEFAULT_THREAD_ID ∧
    runStep [] "approve" none = runStep [] "approve" (some DEFAULT_THREAD_ID) ∧
    (∃ entry,
      mapGet (register_interrupt (fun _ => "") [] DEFAULT_THREAD_ID
          [⟨some [⟨some "k8s_scale_deployment", none, none⟩],
            some [⟨some ["approve", "reject"]⟩]⟩]).1
        DEFAULT_THREAD_ID = some entry ∧
      runStep (register_interrupt (fun _ => "") [] DEFAULT_THREAD_ID
          [⟨some [⟨some "k8s_scale_deployment", none, none⟩],
            some [⟨some ["approve", "reject"]⟩]⟩]).1 "approve" none =
        handlePending (register_interrupt (fun _ => "") [] DEFAULT_THREAD_ID
            [⟨some [⟨some "k8s_scale_deployment", none, none⟩],
              some [⟨some ["approve", "reject"]⟩]⟩]).1
          DEFAULT_THREAD_ID entry (strTrim "approve")) :=
  c9_default_thread_shared (fun _ => "") []
    [⟨some [⟨some "k8s_scale_deployment", none, none⟩],
      some [⟨some ["approve", "reject"]⟩]⟩] "approve" (by decide)

/-- C5 counterexample: the request `mcp_call_tool` sends has no
`"protocol"` key at all; its version field is keyed `"jsonrpc"`. -/
theorem c5_protocol_key_counterexample :
    jget (mcp_call_tool_request "k8s_list_nodes" (Json.obj [])) "protocol" = none ∧
    jget (mcp_call_tool_request "k8s_list_nodes" (Json.obj [])) "jsonrpc" =
      some (Json.str "2.0") :=
  ⟨rfl, rfl⟩

/-- C5 amended: for every invocation the single request object is exactly
`{jsonrpc: "2.0", id: "supervisor", method: "tools/call",
params: {name, arguments}}` — the version field is keyed `"jsonrpc"` with
value `"2.0"`, and the object holds exactly these four keys. -/
theorem c5_request_shape (name : String) (arguments : Json) :
    jget (mcp_call_tool_request name arguments) "jsonrpc" = some (Json.str "2.0") ∧
    jget (mcp_call_tool_request name arguments) "id" = some (Json.str "supervisor") ∧
    jget (mcp_call_tool_request name arguments) "method" = some (Json.str "tools/call") ∧
    jget (mcp_call_tool_request name arguments) "params" =
      some (Json.obj [("name", Json.str name), ("arguments", arguments)]) ∧
    (∃ fields, mcp_call_tool_request name arguments = Json.obj fields ∧
      fields.map Prod.fst = ["jsonrpc", "id", "method", "params"]) :=
  ⟨rfl, rfl, rfl, rfl, _, rfl, rfl⟩

/-- `firstTextChunk` finds exactly the first `type == "text"` chunk. -/
theorem firstTextChunk_spec (chunks : List Json) :
    (firstTextChunk chunks = none ∧ ∀ c ∈ chunks, isTextChunk c = false) ∨
    (∃ pre c post, chunks = pre ++ c :: post ∧
      (∀ c2 ∈ pre, isTextChunk c2 = false) ∧ isTextChunk c = true ∧
      firstTextChunk chunks = some ((jget c "text").getD Json.null)) := by
  induction chunks with
  | nil => exact Or.inl ⟨rfl, by simp⟩
  | cons hd tl ih =>
    by_cases h : isTextChunk hd = true
    · refine Or.inr ⟨[], hd, tl, by simp, by simp, h, ?_⟩
      simp [firstTextChunk, h]
    · have hf : isTextChunk hd = false := by simpa using h
      rcases ih with ⟨hn, hall⟩ | ⟨pre, c, post, hsplit, hpre, hc, hfind⟩
      · refine Or.inl ⟨by simp [firstTextChunk, hf, hn], ?_⟩
        intro c hcmem
        rcases List.mem_cons.mp hcmem with rfl | hmem
        · exact hf
        · exact hall c hmem
      · refine Or.inr ⟨hd :: pre, c, post, by rw [hsplit]; rfl, ?_, hc, ?_⟩
        · intro c2 hc2
          rcases List.mem_cons.mp hc2 with rfl | hmem
          · exact hf
          · exact hpre c2 hmem
        · simp [firstTextChunk, hf, hfind]

/-- C6: the invocation client returns `result.structuredContent` when it
is present and non-null; otherwise the `text` of the first chunk of
`result.content` whose type is `"text"`; otherwise the raw result
object. -/
theorem c6_extraction_rule (resp : Json) :
    (∀ v, jget (mcpResult resp) "structuredContent" = some v → v ≠ Json.null →
      mcp_call_tool_result resp = v) ∧
    ((jget (mcpResult resp) "structuredContent" = none ∨
      jget (mcpResult resp) "structuredContent" = some Json.null) →
      ((∃ pre c post, contentList (mcpResult resp) = pre ++ c :: post ∧
          (∀ c2 ∈ pre, isTextChunk c2 = false) ∧ isTextChunk c = true ∧
          mcp_call_tool_result resp = (jget c "text").getD Json.null) ∨
       ((∀ c ∈ contentList (mcpResult resp), isTextChunk c = false) ∧
        mcp_call_tool_result resp = mcpResult resp))) := by
  constructor
  · intro v hv hnn
    simp only [mcp_call_tool_result]
    rw [hv]
    cases v
    · exact absurd rfl hnn
    all_goals rfl
  · intro hsc
    have hscan : mcp_call_tool_result resp = scanContent (mcpResult resp) := by
      simp only [mcp_call_tool_result]
      rcases hsc with h | h <;> rw [h]
    rcases firstTextChunk_spec (contentList (mcpResult resp)) with
      ⟨hn, hall⟩ | ⟨pre, c, post, hsplit, hpre, hc, hfind⟩
    · right
      refine ⟨hall, ?_⟩
      rw [hscan]
      simp [scanContent, hn]
    · left
      refine ⟨pre, c, post, hsplit, hpre, hc, ?_⟩
      rw [hscan]
      simp [scanContent, hfind]

/-- C6 witness: a response with no `structuredContent` and one text
chunk extracts that chunk's text. -/
theorem c6_extraction_rule_witness :
    (∃ pre c post, contentList (mcpResult respWitness) = pre ++ c :: post ∧
        (∀ c2 ∈ pre, isTextChunk c2 = false) ∧ isTextChunk c = true ∧
        mcp_call_tool_result respWitness = (jget c "text").getD Json.null) ∨
    ((∀ c ∈ contentList (mcpResult respWitness), isTextChunk c = false) ∧
     mcp_call_tool_result respWitness = mcpResult respWitness) :=
  (c6_extraction_rule respWitness).2 (Or.inl rfl)

/-- A list never starts with a pattern longer than the empty one when the
pattern is empty: base equation of `charsStartWith`. -/
theorem charsStartWith_nil_pat (l : List Char) : charsStartWith l [] = true := by
  cases l <;> rfl

/-- A list starts with its own prefix. -/
theorem charsStartWith_append (p t : List Char) : charsStartWith (p ++ t) p = true := by
  induction p with
  | nil => exact charsStartWith_nil_pat t
  | cons c cs ih => simp [charsStartWith, ih]

/-- A concatenated string ends with its second part. -/
theorem strEndsWith_append (a b : String) : strEndsWith (a ++ b) b = true := by
  show charsStartWith (a ++ b).data.reverse b.data.reverse = true
  have hdata : (a ++ b).data = a.data ++ b.data := rfl
  rw [hdata, List.reverse_append]
  exact charsStartWith_append _ _

/-- Every character produced by `hexChar` on a nibble is a hex digit. -/
theorem hexChar_isHex :
    ∀ n, n < 16 → ((hexChar n).isDigit || ('a' ≤ hexChar n && hexChar n ≤ 'f')) = true := by
  decide

/-- `hexdigest` output consists of hex digits only. -/
theorem isHexStringB_hexdigest (bytes : List UInt8) :
    isHexStringB (hexdigest bytes) = true := by
  show ((bytes.map hexOfByte).flatten).all
      (fun c => c.isDigit || ('a' ≤ c && c ≤ 'f')) = true
  rw [List.all_eq_true]
  intro c hcmem
  rw [List.mem_flatten] at hcmem
  obtain ⟨l, hl, hcl⟩ := hcmem
  rw [List.mem_map] at hl
  obtain ⟨b, -, rfl⟩ := hl
  have hb : b.toNat < 256 := UInt8.toNat_lt_size b
  simp only [hexOfByte, List.mem_cons, List.not_mem_nil, or_false] at hcl
  rcases hcl with rfl | rfl
  · exact hexChar_isHex _ (by omega)
  · exact hexChar_isHex _ (by omega)

/-- C7: delegation rejects an empty or whitespace-only goal, and a
non-positive `max_pods`, before the reasoning engine is consulted (the
outcome does not depend on the worker at all), and every successful
delegation result ends in the fixed signature block whose two digest
lines are hex strings — delegation never returns unsigned output. -/
theorem c7_delegation_validation_and_signing
    (hm : List UInt8 → List UInt8 → List UInt8) (bl : List UInt8 → List UInt8)
    (secretEnv : Option String) (w1 w2 : String → Option String)
    (goal : String) (nspace workload : Option String)
    (include_logs : Bool) (max_pods : Int) :
    (strTrim goal = "" →
      run_diagnostics_worker hm bl secretEnv w1 goal nspace workload include_logs
          max_pods = .error "goal is required for diagnostics" ∧
      run_diagnostics_worker hm bl secretEnv w1 goal nspace workload include_logs
          max_pods =
        run_diagnostics_worker hm bl secretEnv w2 goal nspace workload include_logs
          max_pods) ∧
    (¬ strTrim goal = "" → max_pods ≤ 0 →
      run_diagnostics_worker hm bl secretEnv w1 goal nspace workload include_logs
          max_pods = .error "max_pods must be a positive integer" ∧
      run_diagnostics_worker hm bl secretEnv w1 goal nspace workload include_logs
          max_pods =
        run_diagnostics_worker hm bl secretEnv w2 goal nspace workload include_logs
          max_pods) ∧
    (∀ out,
      run_diagnostics_worker hm bl secretEnv w1 goal nspace workload include_logs
          max_pods = .ok out →
      ∃ h1 h2, isHexStringB h1 = true ∧ isHexStringB h2 = true ∧
        strEndsWith out (signatureBlock h1 h2) = true) := by
  refine ⟨?_, ?_, ?_⟩
  · intro h
    constructor <;> simp [run_diagnostics_worker, if_pos h]
  · intro hg hmp
    constructor <;> simp [run_diagnostics_worker, if_neg hg, if_pos hmp]
  · intro out hout
    by_cases hg : strTrim goal = ""
    · simp [run_diagnostics_worker, if_pos hg] at hout
    · by_cases hmp : max_pods ≤ 0
      · simp [run_diagnostics_worker, if_neg hg, if_pos hmp] at hout
      · simp only [run_diagnostics_worker, if_neg hg, if_neg hmp] at hout
        cases hw : w1 (diagnosticsPrompt (strTrim goal) nspace workload include_logs
            max_pods) with
        | none => rw [hw] at hout; cases hout
        | some answer =>
          rw [hw] at hout
          have hattach : attach_worker_signatures hm bl secretEnv answer = out :=
            Except.ok.inj hout
          refine ⟨hexdigest (hm (utf8Bytes (secretEnv.getD DEFAULT_SIGNATURE_SECRET))
              (utf8Bytes answer)),
            hexdigest (bl (utf8Bytes answer ++
              utf8Bytes (secretEnv.getD DEFAULT_SIGNATURE_SECRET))),
            isHexStringB_hexdigest _, isHexStringB_hexdigest _, ?_⟩
          rw [← hattach]
          exact strEndsWith_append (rstripNewlines answer) _

/-- C7 witness: a concrete successful delegation ends in the signature
block. -/
theorem c7_delegation_validation_and_signing_witness :
    ∃ h1 h2, isHexStringB h1 = true ∧ isHexStringB h2 = true ∧
      strEndsWith (attach_worker_signatures (fun _ _ => []) (fun _ => []) none "report")
        (signatureBlock h1 h2) = true :=
  (c7_delegation_validation_and_signing (fun _ _ => []) (fun _ => []) none
      (fun _ => some "report") (fun _ => some "report")
      "check node health" none none true 3).2.2
    (attach_worker_signatures (fun _ _ => []) (fun _ => []) none "report") rfl

end Supervisor
